import Mathlib

/-!
Shallow embedding of the workflow-report generator's core logic
(`app/services/therefore.py` and the run-logging tail of
`app/services/report.py`), together with theorems checking the
natural-language specification against it.

Modelling conventions used throughout:

* Machine integers are `Int`/`Nat` (Python integers are unbounded, so no
  wrap-around modelling is needed).
* Timestamps are integers (microseconds since the Unix epoch for the date
  parser, an abstract totally ordered `Int` axis elsewhere).
* A remote HTTP call (`ThereforeClient._post`) is modelled by an explicit
  environment value of type `Option <typed response>`; `none` models the
  Python layer returning `None` (transport/HTTP failure, which `_post`
  converts into `None`) or a falsy JSON body — every caller of `_post`
  guards with `if not result:`, so the two are indistinguishable downstream.
* Python string truthiness / int truthiness (`if instance_no:`) is modelled
  explicitly where the source relies on it.
-/

namespace ThereforeSpec

/-! ### Order-preserving deduplication loop

`therefore.py` removes duplicates in two places (lines 631-640 and 876-885)
with the same loop:

    seen = set()
    unique = []
    for t in items:
        if t not in seen:
            seen.add(t)
            unique.append(t)

`dedupLoop seen items` is that loop with the mutable `seen` set modelled as
the list of elements already seen; `dedupKeepOrder` runs it from the empty
set.  The loop is keyed on the whole element; for the query layer the
element is the full `(instance_no, token_no)` pair. -/
def dedupLoop {α : Type} [DecidableEq α] (seen : List α) : List α → List α
  | [] => []
  | t :: rest => if t ∈ seen then dedupLoop seen rest else t :: dedupLoop (t :: seen) rest

def dedupKeepOrder {α : Type} [DecidableEq α] (items : List α) : List α :=
  dedupLoop [] items


/-! ### Stable sorting

Python's `sorted(xs, key=k)` is a stable sort by the (lexicographically
compared) key tuples.  A stable sort w.r.t. a fixed total preorder is
uniquely determined, so it is modelled by Lean core's stable
`List.mergeSort`.  `lexLe k₁ k₂` is the Boolean comparison induced by the
key pair `(k₁ x, k₂ x)` under Python's lexicographic tuple comparison. -/
def lexLe {α : Type} {β γ : Type} [LinearOrder β] [LinearOrder γ]
    (k₁ : α → β) (k₂ : α → γ) (a b : α) : Bool :=
  decide (k₁ a < k₁ b ∨ (k₁ a = k₁ b ∧ k₂ a ≤ k₂ b))


/-! ### Date parsing (`parse_dotnet_date`, therefore.py lines 47-78)

A Python `datetime` is modelled as its instant: the number of microseconds
since the Unix epoch (an `Int`).  `datetime` only represents years 1-9999,
so `datetime.fromtimestamp` raises for instants outside that window; the
embedding returns `Except`, with `.error` modelling a raised exception and
`.ok` a returned value.

`datetime.fromtimestamp(timestamp_ms / 1000, tz=timezone.utc)` performs the
millisecond-to-second division in IEEE-754 double arithmetic; the embedding
idealises it as exact arithmetic (`µs = ms * 1000`).  The idealisation is
exact for contemporary values (the double rounding error stays below half a
microsecond for `ms < 2^42`) but not for arbitrarily large in-range inputs;
see the notes on claim C7. -/

/-- Lower bound of Python `datetime`: 0001-01-01T00:00:00 UTC, in µs since
the epoch. -/
def datetimeMinUs : Int := -62135596800000000

/-- Upper bound of Python `datetime`: 9999-12-31T23:59:59.999999 UTC, in µs
since the epoch (the instant 10000-01-01T00:00:00Z is 253402300800 s). -/
def datetimeMaxUs : Int := 253402300800000000 - 1

/-- Model of `datetime.fromtimestamp(ms / 1000, tz=timezone.utc)` at exact
arithmetic: the UTC instant `ms` milliseconds after the epoch, raising
(`.error`) when the instant falls outside `datetime`'s representable range. -/
def fromtimestampMs (ms : Nat) : Except String Int :=
  let us : Int := (ms : Int) * 1000
  if datetimeMinUs ≤ us ∧ us ≤ datetimeMaxUs then Except.ok us
  else Except.error "year out of range"

/-- Greedily take the leading run of decimal digits (the `\d+` of the
regex; greediness is equivalent to the regex's backtracking here because no
later regex element can match a digit). -/
def takeDigits : List Char → List Char × List Char
  | [] => ([], [])
  | c :: cs =>
    if c.isDigit then
      let p := takeDigits cs
      (c :: p.1, p.2)
    else ([], c :: cs)

/-- Match the tail `(?:[+-]\d{4})?\)/` of the regex
`/Date\((\d+)(?:[+-]\d{4})?\)/` against the characters following the digit
run.  `re.match` anchors only at the start, so trailing characters after
`)/` are allowed. -/
def matchSuffixClose : List Char → Bool
  | ')' :: '/' :: _ => true
  | s :: d1 :: d2 :: d3 :: d4 :: ')' :: '/' :: _ =>
    (s = '+' || s = '-') && d1.isDigit && d2.isDigit && d3.isDigit && d4.isDigit
  | _ => false

/-- Numeric value of a digit string, as Python's `int` reads it. -/
def digitsVal (ds : List Char) : Nat :=
  ds.foldl (fun a c => a * 10 + (c.toNat - 48)) 0

/-- Model of `re.match(r'/Date\((\d+)(?:[+-]\d{4})?\)/', s)`: `some n`
when the regex matches with captured digits of value `n`. -/
def matchDotNetDate (s : List Char) : Option Nat :=
  match s with
  | '/' :: 'D' :: 'a' :: 't' :: 'e' :: '(' :: rest =>
    let p := takeDigits rest
    if p.1 ≠ [] && matchSuffixClose p.2 then some (digitsVal p.1) else none
  | _ => none

/-- Model of `date_str.replace('Z', '+00:00')` (replaces every `Z`). -/
def replaceZ : List Char → List Char
  | [] => []
  | c :: cs => if c = 'Z' then '+' :: '0' :: '0' :: ':' :: '0' :: '0' :: replaceZ cs else c :: replaceZ cs

/-- Model of `parse_dotnet_date` (therefore.py lines 47-78).

The two `datetime.fromisoformat` branches call the Python standard library,
an external collaborator; it is abstracted by the `isoParse` oracle, where
`none` models `fromisoformat` raising (the source wraps both calls in
`try/except: pass`).  The `.NET /Date(N)/ ` branch is *not* wrapped in a
`try`, so an exception from `fromtimestamp` propagates: the embedding
returns `.error` there.  `.ok none` models the Python function returning
`None`. -/
def parse_dotnet_date (isoParse : List Char → Option Int) (s : List Char) :
    Except String (Option Int) :=
  if s = [] then Except.ok none  -- `if not date_str: return None`
  else
    match matchDotNetDate s with
    | some ms => (fromtimestampMs ms).map some
    | none =>
      -- `if 'Z' in date_str:` then try ISO with Z replaced, swallowing errors
      let zAttempt : Option Int :=
        if 'Z' ∈ s then isoParse (replaceZ s) else none
      match zAttempt with
      | some t => Except.ok (some t)
      | none =>
        -- plain `datetime.fromisoformat`, errors swallowed, then `return None`
        match isoParse s with
        | some t => Except.ok (some t)
        | none => Except.ok none

/-- The character for a single decimal digit. -/
def charOfDigit : Nat → Char
  | 0 => '0' | 1 => '1' | 2 => '2' | 3 => '3' | 4 => '4'
  | 5 => '5' | 6 => '6' | 7 => '7' | 8 => '8' | _ => '9'

/-- Decimal digit string of a natural number (the canonical digits Python's
`str(n)` would produce), used to state the round-trip property. -/
def natDigits (n : Nat) : List Char :=
  if n = 0 then ['0'] else ((Nat.digits 10 n).reverse.map charOfDigit)

/-- The zone-offset suffixes the regex accepts between the digits and the
closing `)/`: nothing, or a sign followed by exactly four digits. -/
def ValidZoneSuffix (sfx : List Char) : Prop :=
  sfx = [] ∨ ∃ sign d1 d2 d3 d4, sfx = [sign, d1, d2, d3, d4] ∧
    (sign = '+' ∨ sign = '-') ∧
    d1.isDigit = true ∧ d2.isDigit = true ∧ d3.isDigit = true ∧ d4.isDigit = true

/-- The largest millisecond value whose instant Python's `datetime` can
represent (9999-12-31T23:59:59.999 UTC). -/
def maxRepresentableMs : Nat := 253402300799999

/-! ### Linked-document parser (`LinkedDocument.from_index_string`,
therefore.py lines 193-226)

Strings under parsing are modelled as `List Char`. -/

/-- Model of Python `str.strip()` (no argument): drop leading and trailing
whitespace.  `Char.isWhitespace` covers the ASCII whitespace that occurs in
practice; Python additionally strips some rarer Unicode space characters. -/
def pyStrip (s : List Char) : List Char :=
  ((s.dropWhile Char.isWhitespace).reverse.dropWhile Char.isWhitespace).reverse

/-- The separator `" - "` the parser splits on. -/
def sepChars : List Char := [' ', '-', ' ']

/-- Does the string start with `" - "`? -/
def startsWithSep (s : List Char) : Bool :=
  decide (s.take 3 = sepChars)

/-- Model of `full_string.split(" - ", 1)` restricted to the information the
source uses: `some (l, r)` splits at the *first* occurrence of `" - "`,
`none` when the separator does not occur (in the source that case is
guarded by `if " - " in full_string`, the same left-to-right scan). -/
def splitOnceSep : List Char → Option (List Char × List Char)
  | [] => none
  | c :: cs =>
    if startsWithSep (c :: cs) then some ([], cs.drop 2)
    else (splitOnceSep cs).map (fun p => (c :: p.1, p.2))

structure LinkedDocument where
  doc_no : Int
  category_no : Int
  category_name : List Char
  index_data : List Char
  full_string : List Char
deriving DecidableEq, Repr

/-- Model of `LinkedDocument.from_index_string` (therefore.py lines
202-226).  The source first normalises a `None` argument with
`index_data_string or ""`; the embedding takes the string itself (the only
call site, line 706-712, passes a string it has already checked to be
truthy). -/
def LinkedDocument.from_index_string (doc_no category_no : Int) (s : List Char) :
    LinkedDocument :=
  match splitOnceSep s with
  | some p =>
    { doc_no := doc_no, category_no := category_no,
      category_name := pyStrip p.1, index_data := pyStrip p.2, full_string := s }
  | none =>
    { doc_no := doc_no, category_no := category_no,
      category_name := [], index_data := s, full_string := s }

/-! ### Workflow instance data model and `sort_instances`
(therefore.py lines 183-328)

Timestamps (`task_start`, `task_due`, …) live on an abstract totally
ordered integer time axis; "now" (`datetime.now()` inside `is_overdue`) is
passed explicitly.  The timezone-awareness asymmetry of `is_overdue`
(aware comparison when `task_due` carries a timezone, naive otherwise) is
not observable on a single time axis and is not modelled. -/

inductive UserType where
  | SINGLE_USER   -- 1
  | USER_GROUP    -- 2
  | SYSTEM_USER   -- 3
deriving DecidableEq, Repr

structure UserDetail where
  user_id : Int
  display_name : String
  smtp : String
  user_type : UserType
  disabled : Bool
deriving DecidableEq, Repr

structure InstanceForUser where
  instance_no : Int
  process_no : Int
  process_name : String
  task_name : String
  task_start : Int
  task_due : Option Int
  process_start_date : Int
  user_id : Int
  user_display_name : String
  user_smtp : String
  linked_documents : List LinkedDocument
  tenant_base_url : String
  token_no : Int
deriving DecidableEq, Repr

/-- Model of the `InstanceForUser.is_overdue` property:
`task_due is not None and now > task_due`. -/
def InstanceForUser.is_overdue (now : Int) (inst : InstanceForUser) : Bool :=
  match inst.task_due with
  | some due => decide (due < now)
  | none => false

/-- `far_future = datetime(9999, 12, 31, tzinfo=timezone.utc)` as µs since
the epoch. -/
def farFutureUs : Int := 253402214400000000

/-- The key of `due_date_key` (therefore.py lines 306-312): overdue ↦ tag 0,
not overdue ↦ tag 1, no due date ↦ tag 2 with the far-future date. -/
def dueDateKey (now : Int) (inst : InstanceForUser) : Nat × Int :=
  match inst.task_due with
  | none => (2, farFutureUs)
  | some due => if inst.is_overdue now then (0, due) else (1, due)

/-- Boolean comparison Python's `sorted` applies for the due-date order. -/
def dueKeyLe (now : Int) (a b : InstanceForUser) : Bool :=
  lexLe (fun i => (dueDateKey now i).1) (fun i => (dueDateKey now i).2) a b

/-- Key of `process_name_key` (lines 317-319):
`(inst.process_name.lower(), due-or-far-future)`. -/
def processNameKey (inst : InstanceForUser) : String × Int :=
  (inst.process_name.toLower, match inst.task_due with | some due => due | none => farFutureUs)

def processKeyLe (a b : InstanceForUser) : Bool :=
  lexLe (fun i => (processNameKey i).1) (fun i => (processNameKey i).2) a b

/-- Key of the task-start order (line 324): `inst.task_start or far_future`.
A Python `datetime` is always truthy, and `task_start` is never `None` in
this data model (see `get_workflow_instance`, line 729), so the `or` is the
identity. -/
def startKeyLe (a b : InstanceForUser) : Bool :=
  lexLe (fun i => i.task_start) (fun _ => (0 : Int)) a b

/-- Model of `sort_instances` (therefore.py lines 288-328).  `sort_order`
is the raw string the report configuration stores; the unknown-value branch
re-enters with `"task_due_date"` exactly as the source does. -/
def sort_instances (now : Int) (instances : List InstanceForUser) (sort_order : String) :
    List InstanceForUser :=
  if instances = [] then instances
  else if sort_order = "task_due_date" then
    instances.mergeSort (dueKeyLe now)
  else if sort_order = "process_name" then
    instances.mergeSort processKeyLe
  else if sort_order = "task_start_date" then
    instances.mergeSort startKeyLe
  else
    sort_instances now instances "task_due_date"
termination_by (if sort_order = "task_due_date" then 0 else 1)
decreasing_by simp_all

/-! ### Remote query layer (therefore.py lines 494-680, 824-885)

The remote Therefore API is an external system; one report run interacts
with it through `_post`, modelled by a `RemoteEnv` giving, per endpoint,
the response `_post` produced.  `none` models `_post` returning `None`
(transport/HTTP failure) or a falsy body — every consumer immediately
guards with `if not result:`.  Response bodies are typed records holding
exactly the fields the source reads, with `.get` defaults folded in
(`Option` where the source distinguishes a missing/null field).

`WorkflowFlags` values are carried as the `Int` the source serialises
(`RUNNING_INSTANCES = 1`, `ERROR_INSTANCES = 4`); the `Option Int`
parameter mirrors the `Optional[WorkflowFlags]` arguments, with `none`
resolved to the default flag inside each query function just as in the
source.  `MaxRows` only shapes the request payload, which the environment
abstracts, so it is not carried. -/

/-- One entry of `ResultRows`: `row.get("InstanceNo")` (may be absent) and
`row.get("TokenNo", 0)`. -/
structure WfRow where
  instanceNo : Option Int
  tokenNo : Int
deriving DecidableEq, Repr

/-- One entry of `WorkflowQueryResultList` in an
`ExecuteWorkflowQueryForAll` response. -/
structure WfQueryResult where
  resultRows : List WfRow
deriving DecidableEq, Repr

/-- `ExecuteWorkflowQueryForAll` response body
(`result.get("WorkflowQueryResultList", [])`). -/
structure ForAllResp where
  workflowQueryResultList : List WfQueryResult
deriving DecidableEq, Repr

/-- `ExecuteWorkflowQueryForProcess` response body
(`result.get("WorkflowQueryResult", {}).get("ResultRows", [])`). -/
structure ForProcessResp where
  resultRows : List WfRow
deriving DecidableEq, Repr

/-- One entry of an `ExecuteStatisticsQuery` result:
`entry.get("EntryNo")` and `entry.get("CountValue", 0)`. -/
structure StatsEntry where
  entryNo : Option Int
  countValue : Int
deriving DecidableEq, Repr

/-- `ExecuteStatisticsQuery` response body
(`stats_result.get("QueryResult", {}).get("ResultRows", [])`). -/
structure StatsResp where
  resultRows : List StatsEntry
deriving DecidableEq, Repr

/-- The remote responses one run observes.  `statsResp` is indexed by the
`QueryType` sent (102 or 108); `processResp` by `ProcessNo`. -/
structure RemoteEnv where
  forAllResp : Option ForAllResp
  processResp : Int → Option ForProcessResp
  statsResp : Int → Option StatsResp

/-- Row extraction shared by both query endpoints (lines 522-528 and
671-678): keep `(instance_no, token_no)` for rows whose `InstanceNo` is
truthy (present and nonzero). -/
def extractRows (rows : List WfRow) : List (Int × Int) :=
  rows.filterMap fun r =>
    match r.instanceNo with
    | some n => if n ≠ 0 then some (n, r.tokenNo) else none
    | none => none

/-- `WorkflowFlags.RUNNING_INSTANCES`, the client's default flag. -/
def DEFAULT_WORKFLOW_FLAG : Int := 1

/-- `WorkflowFlags.ERROR_INSTANCES`. -/
def ERROR_INSTANCES : Int := 4

/-- Model of `execute_workflow_query_for_all` (lines 494-530): `none`
exactly when `_post` produced no usable response, otherwise the extracted
`(instance_no, token_no)` list (possibly empty). -/
def execute_workflow_query_for_all (env : RemoteEnv) (workflow_flags : Option Int) :
    Option (List (Int × Int)) :=
  let _flags := workflow_flags.getD DEFAULT_WORKFLOW_FLAG
  match env.forAllResp with
  | none => none
  | some resp =>
    some (resp.workflowQueryResultList.flatMap fun q => extractRows q.resultRows)

/-- Model of `execute_workflow_query_for_process` (lines 642-680): a failed
call yields `[]`, indistinguishable from an empty result. -/
def execute_workflow_query_for_process (env : RemoteEnv) (process_no : Int)
    (workflow_flags : Option Int) : List (Int × Int) :=
  let _flags := workflow_flags.getD DEFAULT_WORKFLOW_FLAG
  match env.processResp process_no with
  | none => []
  | some resp => extractRows resp.resultRows

/-- Process ids extracted from a statistics response (lines 605-610 and
549-554): entries with truthy `EntryNo` and `CountValue > 0`, in response
order. -/
def statsActiveProcessIds (resp : StatsResp) : List Int :=
  resp.resultRows.filterMap fun e =>
    match e.entryNo with
    | some n => if n ≠ 0 ∧ 0 < e.countValue then some n else none
    | none => none

/-- Model of `_get_active_processes_from_stats` (lines 532-559): the set of
process ids with at least one *active* instance per statistics query type
102, or `none` when the statistics call fails.  (The Python `set` is
modelled as the extracted list; only membership is consumed.) -/
def _get_active_processes_from_stats (env : RemoteEnv) : Option (List Int) :=
  match env.statsResp 102 with
  | none => none
  | some resp => some (statsActiveProcessIds resp)

/-- The per-process fallback body of `execute_workflow_query_with_fallback`
(lines 585-640): pick statistics type 108 for error queries and 102
otherwise, query each returned process individually (a failing process
contributes nothing), and deduplicate on the full pair preserving
discovery order. -/
def fallbackPath (env : RemoteEnv) (workflow_flags : Option Int) : List (Int × Int) :=
  let statsQueryType : Int := if workflow_flags = some ERROR_INSTANCES then 108 else 102
  match env.statsResp statsQueryType with
  | none => []
  | some resp =>
    let processIds := statsActiveProcessIds resp
    let allInstances := processIds.flatMap fun p =>
      execute_workflow_query_for_process env p workflow_flags
    dedupKeepOrder allInstances

/-- Model of `execute_workflow_query_with_fallback` (lines 561-640). -/
def execute_workflow_query_with_fallback (env : RemoteEnv) (workflow_flags : Option Int) :
    List (Int × Int) :=
  match execute_workflow_query_for_all env workflow_flags with
  | some instances => instances  -- query succeeded (may be an empty list)
  | none => fallbackPath env workflow_flags

/-- The process-scoped query stage of `get_all_workflow_instances`
(lines 851-871), before pair-deduplication: deduplicate the requested
process ids (`dict.fromkeys` keeps first occurrences), pre-filter through
the type-102 statistics when they are available, then query each remaining
process. -/
def scopedQuery (env : RemoteEnv) (process_nos : List Int) (workflow_flags : Option Int) :
    List (Int × Int) :=
  let uniqueProcessNos := dedupKeepOrder process_nos
  let filteredProcessNos :=
    match _get_active_processes_from_stats env with
    | none => uniqueProcessNos
    | some active => uniqueProcessNos.filter (fun p => p ∈ active)
  filteredProcessNos.flatMap fun p => execute_workflow_query_for_process env p workflow_flags

/-- What querying the full requested scope returns: every requested process
queried individually, no statistics pre-filter.  This is the reference the
"purely an optimization" claim compares against, and it is also exactly the
code path taken when the statistics call fails. -/
def fullScopeQuery (env : RemoteEnv) (process_nos : List Int) (workflow_flags : Option Int) :
    List (Int × Int) :=
  (dedupKeepOrder process_nos).flatMap fun p =>
    execute_workflow_query_for_process env p workflow_flags

/-- The instance refs collected by step 1 of `get_all_workflow_instances`
(lines 850-874), before pair-deduplication.  `if process_nos:` is Python
truthiness: `None` and the empty list both select the fallback branch. -/
def collectedRefs (env : RemoteEnv) (process_nos : Option (List Int))
    (workflow_flags : Option Int) : List (Int × Int) :=
  match process_nos with
  | some (p :: ps) => scopedQuery env (p :: ps) workflow_flags
  | _ => execute_workflow_query_with_fallback env workflow_flags

/-- The deduplicated `(instance_no, token_no)` list handed to the detail
fetcher (lines 876-885). -/
def gatherInstanceRefs (env : RemoteEnv) (process_nos : Option (List Int))
    (workflow_flags : Option Int) : List (Int × Int) :=
  dedupKeepOrder (collectedRefs env process_nos workflow_flags)

/-! ### Group expansion (therefore.py lines 786-822 and 956-973)

`GetUsersFromGroup` responses are given by a `GroupEnv`: for each group id,
the parsed `Users` list of the response.  A failed call and the
"User has wrong type" (not-a-group) case both yield `[]`, which is how the
source treats them.

`_expand_users` recurses into nested groups with no cycle guard; in Python
a membership cycle recurses without bound (until `RecursionError`).  The
embedding makes the recursion depth explicit with `fuel`, counting group
nestings entered: `expandUsers env fuel users = none` means the Python
recursion exceeds depth `fuel` — so "the expansion terminates" is
`∃ fuel, (expandUsers env fuel users).isSome`. -/

structure GroupEnv where
  members : Int → List UserDetail

/-- Model of `get_users_from_group` (lines 786-822): entries whose
`Disabled` is falsy, re-packaged with `disabled=False`. -/
def get_users_from_group (env : GroupEnv) (group_id : Int) : List UserDetail :=
  (env.members group_id).filterMap fun u =>
    if u.disabled then none else some { u with disabled := false }

/-- Model of `_expand_users` (lines 956-973), with the accumulating
`result` list made explicit as the return value (the Python appends to
`result` in traversal order, which is exactly the concatenation below). -/
def expandUsers (env : GroupEnv) : Nat → List UserDetail → Option (List UserDetail)
  | _, [] => some []
  | fuel, u :: rest =>
    if u.user_type = UserType.USER_GROUP then
      match fuel with
      | 0 => none
      | f + 1 =>
        match expandUsers env f (get_users_from_group env u.user_id),
              expandUsers env (f + 1) rest with
        | some fromGroup, some fromRest => some (fromGroup ++ fromRest)
        | _, _ => none
    else
      match expandUsers env fuel rest with
      | some fromRest =>
        some (if u.user_type = UserType.SINGLE_USER ∧ u.disabled = false
              then u :: fromRest else fromRest)
      | none => none
termination_by fuel users => (fuel, users.length)

/-- Termination of group expansion, as a proposition about the modelled
recursion depth. -/
def ExpandTerminates (env : GroupEnv) (users : List UserDetail) : Prop :=
  ∃ fuel, (expandUsers env fuel users).isSome

/-! ### Short-lived process cache and `get_all_workflow_processes`
(therefore.py lines 10-44 and 432-492)

The module-level `_process_cache` dict is threaded explicitly, with
`datetime.utcnow()` passed as the current time (seconds on the integer
time axis; `_PROCESS_CACHE_TTL = timedelta(hours=1)` is 3600 s).  A dict is
modelled as an association list where insertion overwrites. -/

/-- A cache key `(tenant_name, "workflow_processes")`. -/
abbrev CacheKey := String × String

/-- One workflow process as `get_all_workflow_processes` returns it. -/
structure ProcessEntry where
  process_no : Int
  process_name : String
  folder_name : String
deriving DecidableEq, Repr

/-- The in-memory cache: key ↦ (timestamp, data). -/
def CacheMap := List (CacheKey × (Int × List ProcessEntry))

def cacheLookup (m : CacheMap) (k : CacheKey) : Option (Int × List ProcessEntry) :=
  match m with
  | [] => none
  | (k', v) :: rest => if k' = k then some v else cacheLookup rest k

def cacheErase (m : CacheMap) (k : CacheKey) : CacheMap :=
  match m with
  | [] => []
  | (k', v) :: rest => if k' = k then cacheErase rest k else (k', v) :: cacheErase rest k

def cacheInsert (m : CacheMap) (k : CacheKey) (v : Int × List ProcessEntry) : CacheMap :=
  (k, v) :: cacheErase m k

/-- The cache TTL, `timedelta(hours=1)`, in seconds. -/
def PROCESS_CACHE_TTL : Int := 3600

/-- Model of `_get_cache` (lines 15-23): a stale entry is deleted on read
and reported as a miss; freshness is `now - timestamp > TTL` (strict, so an
entry exactly one hour old still hits). -/
def get_cache (m : CacheMap) (now : Int) (k : CacheKey) :
    CacheMap × Option (List ProcessEntry) :=
  match cacheLookup m k with
  | none => (m, none)
  | some (ts, data) =>
    if PROCESS_CACHE_TTL < now - ts then (cacheErase m k, none) else (m, some data)

/-- Model of `_set_cache` (lines 25-27). -/
def set_cache (m : CacheMap) (now : Int) (k : CacheKey) (data : List ProcessEntry) : CacheMap :=
  cacheInsert m k (now, data)

/-- `GetObjectsList` response item (lines 472-478): `item.get("ID")`
(the process number, may be absent), `item.get("Name", "Unknown Process")`
and `item.get("FolderNo", 0)`. -/
structure GOLItem where
  id : Option Int
  name : Option String
  folderNo : Int
deriving DecidableEq, Repr

/-- `GetObjectsList` folder entry (lines 468-470): `folder.get("FolderNo")`
and `folder.get("Name", "")`. -/
structure GOLFolder where
  folderNo : Int
  name : Option String
deriving DecidableEq, Repr

structure GOLItemList where
  folderList : List GOLFolder
  itemList : List GOLItem
deriving DecidableEq, Repr

/-- `GetObjectsList` response body (`result.get("AllItemsList", [])`). -/
structure GOLResp where
  allItemsList : List GOLItemList
deriving DecidableEq, Repr

/-- The `folder_lookup` dict (lines 467-470): later assignments overwrite
earlier ones, `get(folder_no, "")` defaults to the empty string. -/
def folderLookup (resp : GOLResp) (folderNo : Int) : String :=
  let folders := resp.allItemsList.flatMap (fun il => il.folderList)
  match (folders.reverse.find? fun f => f.folderNo = folderNo) with
  | some f => f.name.getD ""
  | none => ""

/-- Extraction of the process list from a `GetObjectsList` response
(lines 463-485): items with truthy `ID` become process entries. -/
def extractProcesses (resp : GOLResp) : List ProcessEntry :=
  resp.allItemsList.flatMap fun il =>
    il.itemList.filterMap fun item =>
      match item.id with
      | some pid =>
        if pid ≠ 0 then
          some { process_no := pid,
                 process_name := item.name.getD "Unknown Process",
                 folder_name := folderLookup resp item.folderNo }
        else none
      | none => none

/-- The sort key comparison of line 488:
`sorted(processes, key=lambda p: (p["folder_name"], p["process_name"]))`. -/
def processListLe (a b : ProcessEntry) : Bool :=
  lexLe (fun p => p.folder_name) (fun p => p.process_name) a b

/-- Model of `get_all_workflow_processes` (lines 432-492).  Returns the
updated cache, the returned list, and whether a remote `GetObjectsList`
call was issued.  `remoteResp = none` models the remote call failing —
the source then returns `[]` *without* writing the cache. -/
def get_all_workflow_processes (m : CacheMap) (now : Int) (tenant_name : String)
    (remoteResp : Option GOLResp) (use_cache : Bool) :
    CacheMap × List ProcessEntry × Bool :=
  let key : CacheKey := (tenant_name, "workflow_processes")
  let afterCache : CacheMap × Option (List ProcessEntry) :=
    if use_cache then get_cache m now key else (m, none)
  match afterCache.2 with
  | some cached => (afterCache.1, cached, false)
  | none =>
    match remoteResp with
    | none => (afterCache.1, [], true)
    | some resp =>
      let sortedProcesses := (extractProcesses resp).mergeSort processListLe
      (set_cache afterCache.1 now key sortedProcesses, sortedProcesses, true)

/-! ### Run-outcome classification (report.py lines 101-236)

`process_report` runs querying/grouping/emailing inside one `try`; the
embedding classifies the persisted run-log row from the run's outcome:
either the `try` body completed with final counts `(sent, failed)`
(lines 205-230; the early "no instances" return logs
`("success", ...)` with counts `0, 0`, consistent with the classifier), or
an exception aborted it (lines 232-236). -/

/-- Line 219: `status = "success" if failed == 0 else ("partial" if sent > 0
else "error")`. -/
def report_status (sent failed : Nat) : String :=
  if failed = 0 then "success" else if 0 < sent then "partial" else "error"

/-- The `(status, message)` pair `add_run_log` persists: for a completed
run the classified status with the semicolon-joined message trail
(line 220), for an aborted run `"error"` with the exception text
(lines 232-235). -/
def run_log_entry (outcome : Except String (Nat × Nat)) (messages : List String) :
    String × String :=
  match outcome with
  | Except.error exnText => ("error", "Error processing report: " ++ exnText)
  | Except.ok (sent, failed) => (report_status sent failed, String.intercalate "; " messages)

/-! ### Concrete scenarios used to instantiate the theorems -/

/-- A remote environment whose bulk query succeeds with zero rows. -/
def envBulkEmptySuccess : RemoteEnv :=
  { forAllResp := some { workflowQueryResultList := [] },
    processResp := fun _ => none,
    statsResp := fun _ => none }

/-- A remote environment exhibiting the statistics pre-filter gap: the
type-102 statistics report process 10 with zero *active* instances, while
the per-process query for process 10 (run here with the error-instances
filter) returns the instance `(100, 0)` — realisable because an instance
can be in error state without being active. -/
def envPreFilterGap : RemoteEnv :=
  { forAllResp := none,
    processResp := fun p =>
      if p = 10 then some { resultRows := [{ instanceNo := some 100, tokenNo := 0 }] } else none,
    statsResp := fun qt =>
      if qt = 102 then some { resultRows := [{ entryNo := some 10, countValue := 0 }] } else none }

/-- A remote environment where the statistics pre-filter is conclusive:
process 5 is active and returns one instance; process 7 is inactive and its
per-process query would return nothing. -/
def envPreFilterSound : RemoteEnv :=
  { forAllResp := none,
    processResp := fun p =>
      if p = 5 then some { resultRows := [{ instanceNo := some 50, tokenNo := 1 }] } else none,
    statsResp := fun qt =>
      if qt = 102 then some { resultRows := [{ entryNo := some 5, countValue := 3 }] } else none }

/-- A group entry that names group 1 itself. -/
def cycGroupUser : UserDetail :=
  { user_id := 1, display_name := "G", smtp := "", user_type := UserType.USER_GROUP,
    disabled := false }

/-- A group environment in which group 1 contains itself as a (non-disabled)
member: the self-containing group of the termination claim. -/
def cycGroupEnv : GroupEnv :=
  { members := fun gid => if gid = 1 then [cycGroupUser] else [] }

/-- A group environment in which every group is empty (trivially
cycle-free). -/
def emptyGroupEnv : GroupEnv :=
  { members := fun _ => [] }

/-! ## Supporting lemmas -/

theorem mem_dedupLoop {α : Type} [DecidableEq α] (seen : List α) (l : List α) (x : α) :
    x ∈ dedupLoop seen l ↔ x ∈ l ∧ x ∉ seen := by
  induction l generalizing seen with
  | nil => simp [dedupLoop]
  | cons t rest ih =>
    by_cases ht : t ∈ seen
    · simp only [dedupLoop, if_pos ht, ih]
      constructor
      · rintro ⟨hx, hs⟩; exact ⟨List.mem_cons_of_mem _ hx, hs⟩
      · rintro ⟨hx, hs⟩
        rcases List.mem_cons.mp hx with rfl | hx
        · exact absurd ht hs
        · exact ⟨hx, hs⟩
    · simp only [dedupLoop, if_neg ht, List.mem_cons, ih]
      constructor
      · rintro (rfl | ⟨hx, hs⟩)
        · exact ⟨Or.inl rfl, ht⟩
        · exact ⟨Or.inr hx, fun h => hs (Or.inr h)⟩
      · rintro ⟨rfl | hx, hs⟩
        · exact Or.inl rfl
        · by_cases hxt : x = t
          · exact Or.inl hxt
          · refine Or.inr ⟨hx, fun h => ?_⟩
            rcases h with h' | h'
            · exact hxt h'
            · exact hs h'

theorem sublist_dedupLoop {α : Type} [DecidableEq α] (seen : List α) (l : List α) :
    (dedupLoop seen l).Sublist l := by
  induction l generalizing seen with
  | nil => simp [dedupLoop]
  | cons t rest ih =>
    by_cases ht : t ∈ seen
    · simp only [dedupLoop, if_pos ht]
      exact (ih seen).trans (List.sublist_cons_self t rest)
    · simp only [dedupLoop, if_neg ht]
      exact (ih (t :: seen)).cons₂ t

theorem nodup_dedupLoop {α : Type} [DecidableEq α] (seen : List α) (l : List α) :
    (dedupLoop seen l).Nodup := by
  induction l generalizing seen with
  | nil => simp [dedupLoop]
  | cons t rest ih =>
    by_cases ht : t ∈ seen
    · simpa [dedupLoop, if_pos ht] using ih seen
    · simp only [dedupLoop, if_neg ht]
      refine List.nodup_cons.mpr ⟨fun hmem => ?_, ih (t :: seen)⟩
      exact ((mem_dedupLoop _ _ _).mp hmem).2 (List.mem_cons_self t seen)

theorem lexLe_trans {α β γ : Type} [LinearOrder β] [LinearOrder γ]
    (k₁ : α → β) (k₂ : α → γ) (a b c : α)
    (hab : lexLe k₁ k₂ a b) (hbc : lexLe k₁ k₂ b c) : lexLe k₁ k₂ a c := by
  simp only [lexLe, decide_eq_true_eq] at *
  rcases hab with h₁ | ⟨h₁, h₂⟩ <;> rcases hbc with h₃ | ⟨h₃, h₄⟩
  · exact Or.inl (h₁.trans h₃)
  · exact Or.inl (h₃ ▸ h₁)
  · exact Or.inl (h₁ ▸ h₃)
  · exact Or.inr ⟨h₁.trans h₃, h₂.trans h₄⟩

theorem lexLe_total {α β γ : Type} [LinearOrder β] [LinearOrder γ]
    (k₁ : α → β) (k₂ : α → γ) (a b : α) :
    lexLe k₁ k₂ a b || lexLe k₁ k₂ b a := by
  simp only [lexLe, Bool.or_eq_true, decide_eq_true_eq]
  rcases lt_trichotomy (k₁ a) (k₁ b) with h | h | h
  · exact Or.inl (Or.inl h)
  · rcases le_total (k₂ a) (k₂ b) with h' | h'
    · exact Or.inl (Or.inr ⟨h, h'⟩)
    · exact Or.inr (Or.inr ⟨h.symm, h'⟩)
  · exact Or.inr (Or.inl h)

theorem lexLe_of_eq_keys {α β γ : Type} [LinearOrder β] [LinearOrder γ]
    (k₁ : α → β) (k₂ : α → γ) (a b : α)
    (h₁ : k₁ a = k₁ b) (h₂ : k₂ a = k₂ b) : lexLe k₁ k₂ a b := by
  simp [lexLe, h₁, h₂]

/-- Stability of `List.mergeSort`, in filter form: for any Boolean predicate
`p` whose satisfying elements are pairwise `le`-related (e.g. "has key `k`"
for a fixed key `k`), sorting does not disturb the subsequence of elements
satisfying `p`.  This is the "ties keep their input order" guarantee of a
stable sort. -/
theorem filter_mergeSort_eq {α : Type} (le : α → α → Bool)
    (htrans : ∀ a b c : α, le a b → le b c → le a c)
    (htotal : ∀ a b : α, le a b || le b a)
    (p : α → Bool) (hp : ∀ a b : α, p a → p b → le a b) (l : List α) :
    (l.mergeSort le).filter p = l.filter p := by
  have hpair : (l.filter p).Pairwise (fun a b => le a b) := by
    refine List.Pairwise.imp_of_mem ?_ (List.pairwise_of_forall fun b a => True.intro)
    intro a b ha hb _
    exact hp a b (List.of_mem_filter ha) (List.of_mem_filter hb)
  have hsub : (l.filter p).Sublist (l.mergeSort le) :=
    List.sublist_mergeSort htrans htotal hpair (List.filter_sublist l)
  have hsub' : (l.filter p).Sublist ((l.mergeSort le).filter p) := by
    have := hsub.filter p
    rwa [List.filter_filter, (by funext a; simp : (fun a => (p a && p a : Bool)) = p)] at this
  have hlen : ((l.mergeSort le).filter p).length = (l.filter p).length :=
    ((List.mergeSort_perm l le).filter p).length_eq
  exact (hsub'.eq_of_length hlen.symm).symm

/-- Filtering a list before `flatMap` loses nothing when every dropped
element maps to the empty list. -/
theorem filter_flatMap_of_dropped_nil {α β : Type} (l : List α) (P : α → Bool)
    (f : α → List β) (h : ∀ a ∈ l, P a = false → f a = []) :
    (l.filter P).flatMap f = l.flatMap f := by
  induction l with
  | nil => rfl
  | cons a rest ih =>
    have ih' := ih (fun x hx => h x (List.mem_cons_of_mem _ hx))
    by_cases ha : P a
    · simp [List.filter_cons, ha, ih']
    · have : f a = [] := h a (List.mem_cons_self _ _) (Bool.eq_false_iff.mpr ha)
      simp [List.filter_cons, ha, ih', this]

theorem expandUsers_nil (env : GroupEnv) (fuel : Nat) :
    expandUsers env fuel [] = some [] := by
  rw [expandUsers.eq_def]

theorem expandUsers_cons_group_zero (env : GroupEnv) (v : UserDetail)
    (rest : List UserDetail) (hv : v.user_type = UserType.USER_GROUP) :
    expandUsers env 0 (v :: rest) = none := by
  rw [expandUsers.eq_def]
  simp [hv]

theorem expandUsers_cons_group (env : GroupEnv) (f : Nat) (v : UserDetail)
    (rest : List UserDetail) (hv : v.user_type = UserType.USER_GROUP) :
    expandUsers env (f + 1) (v :: rest) =
      match expandUsers env f (get_users_from_group env v.user_id),
            expandUsers env (f + 1) rest with
      | some fromGroup, some fromRest => some (fromGroup ++ fromRest)
      | _, _ => none := by
  rw [expandUsers.eq_def]
  simp [hv]

theorem expandUsers_cons_nongroup (env : GroupEnv) (fuel : Nat) (v : UserDetail)
    (rest : List UserDetail) (hv : ¬ v.user_type = UserType.USER_GROUP) :
    expandUsers env fuel (v :: rest) =
      match expandUsers env fuel rest with
      | some fromRest =>
        some (if v.user_type = UserType.SINGLE_USER ∧ v.disabled = false
              then v :: fromRest else fromRest)
      | none => none := by
  rw [expandUsers.eq_def]
  simp [hv]

/-- Whatever group expansion returns, every returned entry is a
non-disabled `SINGLE_USER` (the only append sites are guarded by exactly
that test, and group entries are never appended). -/
theorem expandUsers_sound (env : GroupEnv) :
    ∀ fuel users result, expandUsers env fuel users = some result →
      ∀ u ∈ result, u.user_type = UserType.SINGLE_USER ∧ u.disabled = false := by
  intro fuel
  induction fuel using Nat.strong_induction_on with
  | _ fuel ihf =>
    intro users
    induction users with
    | nil =>
      intro result h u hu
      rw [expandUsers_nil] at h
      cases h
      simp at hu
    | cons v rest ihl =>
      intro result h u hu
      by_cases hv : v.user_type = UserType.USER_GROUP
      · cases fuel with
        | zero => rw [expandUsers_cons_group_zero env v rest hv] at h; cases h
        | succ f =>
          rw [expandUsers_cons_group env f v rest hv] at h
          cases hg : expandUsers env f (get_users_from_group env v.user_id) with
          | none => rw [hg] at h; cases h
          | some fromGroup =>
            cases hrest : expandUsers env (f + 1) rest with
            | none => rw [hg, hrest] at h; cases h
            | some fromRest =>
              rw [hg, hrest] at h
              cases h
              rcases List.mem_append.mp hu with h1 | h2
              · exact ihf f (Nat.lt_succ_self f) _ fromGroup hg u h1
              · exact ihl fromRest hrest u h2
      · rw [expandUsers_cons_nongroup env fuel v rest hv] at h
        cases hrest : expandUsers env fuel rest with
        | none => rw [hrest] at h; cases h
        | some fromRest =>
          rw [hrest] at h
          cases h
          by_cases hcond : v.user_type = UserType.SINGLE_USER ∧ v.disabled = false
          · rw [if_pos hcond] at hu
            rcases List.mem_cons.mp hu with rfl | h2
            · exact hcond
            · exact ihl fromRest hrest u h2
          · rw [if_neg hcond] at hu
            exact ihl fromRest hrest u hu

/-- With a rank function under which group membership strictly descends
(no group reaches itself), group expansion succeeds once the fuel exceeds
every top-level group's rank. -/
theorem expandUsers_isSome_of_rank (env : GroupEnv) (rank : Int → Nat)
    (hr : ∀ gid m, m ∈ get_users_from_group env gid →
      m.user_type = UserType.USER_GROUP → rank m.user_id < rank gid) :
    ∀ fuel users,
      (∀ u ∈ users, u.user_type = UserType.USER_GROUP → rank u.user_id < fuel) →
      (expandUsers env fuel users).isSome := by
  intro fuel
  induction fuel using Nat.strong_induction_on with
  | _ fuel ihf =>
    intro users
    induction users with
    | nil => intro _; simp [expandUsers_nil]
    | cons v rest ihl =>
      intro hb
      by_cases hv : v.user_type = UserType.USER_GROUP
      · have hvrank : rank v.user_id < fuel := hb v (List.mem_cons_self _ _) hv
        cases fuel with
        | zero => omega
        | succ f =>
          have h1 : (expandUsers env f (get_users_from_group env v.user_id)).isSome := by
            refine ihf f (Nat.lt_succ_self f) _ fun m hm hmty => ?_
            have := hr v.user_id m hm hmty
            omega
          have h2 : (expandUsers env (f + 1) rest).isSome :=
            ihl fun u hu ht => hb u (List.mem_cons_of_mem _ hu) ht
          obtain ⟨fromGroup, hg⟩ := Option.isSome_iff_exists.mp h1
          obtain ⟨fromRest, hrest⟩ := Option.isSome_iff_exists.mp h2
          rw [expandUsers_cons_group env f v rest hv, hg, hrest]
          rfl
      · obtain ⟨fromRest, hrest⟩ := Option.isSome_iff_exists.mp
          (ihl fun u hu ht => hb u (List.mem_cons_of_mem _ hu) ht)
        rw [expandUsers_cons_nongroup env fuel v rest hv, hrest]
        rfl

/-- In `cycGroupEnv`, expanding the self-containing group fails at every
recursion depth: the Python recursion never returns. -/
theorem expandUsers_cyc_none :
    ∀ fuel, expandUsers cycGroupEnv fuel [cycGroupUser] = none := by
  intro fuel
  induction fuel with
  | zero => exact expandUsers_cons_group_zero cycGroupEnv cycGroupUser [] rfl
  | succ f ih =>
    have hmem : get_users_from_group cycGroupEnv cycGroupUser.user_id = [cycGroupUser] := rfl
    rw [expandUsers_cons_group cycGroupEnv f cycGroupUser [] rfl, hmem, ih]

theorem startsWithSep_iff (s : List Char) :
    startsWithSep s = true ↔ ∃ t, s = sepChars ++ t := by
  unfold startsWithSep
  rw [decide_eq_true_eq]
  constructor
  · intro h
    exact ⟨s.drop 3, by rw [← h]; exact (List.take_append_drop 3 s).symm⟩
  · rintro ⟨t, rfl⟩
    have h3 : sepChars.length = 3 := rfl
    rw [← h3, List.take_left]

/-- When the left-to-right scan finds no separator, no decomposition around
`" - "` exists at all. -/
theorem eq_none_splitOnceSep (s : List Char) (h : splitOnceSep s = none) :
    ∀ l r, s ≠ l ++ sepChars ++ r := by
  induction s with
  | nil =>
    intro l r heq
    have hlen := congrArg List.length heq
    simp [sepChars] at hlen
    omega
  | cons c cs ih =>
    intro l r heq
    simp only [splitOnceSep] at h
    by_cases hs : startsWithSep (c :: cs)
    · rw [if_pos hs] at h; cases h
    · rw [if_neg hs] at h
      have hcs : splitOnceSep cs = none := by
        cases hq : splitOnceSep cs with
        | none => rfl
        | some p => rw [hq] at h; cases h
      cases l with
      | nil =>
        refine hs ((startsWithSep_iff _).mpr ⟨r, ?_⟩)
        simpa using heq
      | cons c' l' =>
        have hc : cs = l' ++ sepChars ++ r := by
          have : c :: cs = c' :: (l' ++ sepChars ++ r) := by simpa using heq
          exact (List.cons.injEq _ _ _ _ ▸ this).2
        exact ih hcs l' r hc

/-- When the scan finds a separator, the returned pieces decompose the
string around its *first* occurrence: any other decomposition splits at the
same position or later. -/
theorem splitOnceSep_some_spec (s : List Char) :
    ∀ l r, splitOnceSep s = some (l, r) →
      s = l ++ sepChars ++ r ∧
      ∀ l' r', s = l' ++ sepChars ++ r' → l.length ≤ l'.length := by
  induction s with
  | nil =>
    intro l r h
    cases h
  | cons c cs ih =>
    intro l r h
    simp only [splitOnceSep] at h
    by_cases hs : startsWithSep (c :: cs)
    · rw [if_pos hs] at h
      obtain ⟨hl, hr⟩ : ([] : List Char) = l ∧ cs.drop 2 = r := by
        have := Option.some.inj h
        exact ⟨congrArg Prod.fst this, congrArg Prod.snd this⟩
      subst hl
      subst hr
      obtain ⟨t, ht⟩ := (startsWithSep_iff _).mp hs
      have hteq : t = cs.drop 2 := by
        have := congrArg (List.drop 3) ht
        simpa using this.symm
      refine ⟨by simpa [← hteq] using ht, fun l' r' _ => Nat.zero_le _⟩
    · rw [if_neg hs] at h
      cases hq : splitOnceSep cs with
      | none => rw [hq] at h; cases h
      | some p =>
        rw [hq] at h
        obtain ⟨hl, hr⟩ : c :: p.1 = l ∧ p.2 = r := by
          have := Option.some.inj h
          exact ⟨congrArg Prod.fst this, congrArg Prod.snd this⟩
        subst hl
        subst hr
        obtain ⟨h1, h2⟩ := ih p.1 p.2 (by rw [hq])
        constructor
        · simpa using congrArg (List.cons c) h1
        · intro l' r' heq
          cases l' with
          | nil =>
            exact absurd ((startsWithSep_iff _).mpr ⟨r', by simpa using heq⟩) hs
          | cons c'' l'' =>
            have hc : cs = l'' ++ sepChars ++ r' := by
              have : c :: cs = c'' :: (l'' ++ sepChars ++ r') := by simpa using heq
              exact (List.cons.injEq _ _ _ _ ▸ this).2
            simpa using Nat.succ_le_succ (h2 l'' r' hc)

/-- The greedy digit scan splits an all-digit run from a tail that does not
begin with a digit. -/
theorem takeDigits_append (ds r : List Char) (hds : ∀ ch ∈ ds, ch.isDigit = true)
    (hr : ∀ c' rest, r = c' :: rest → c'.isDigit = false) :
    takeDigits (ds ++ r) = (ds, r) := by
  induction ds with
  | nil =>
    cases r with
    | nil => rfl
    | cons c' rest =>
      simp only [List.nil_append, takeDigits]
      rw [hr c' rest rfl]
      simp
  | cons d ds' ih =>
    have hd : d.isDigit = true := hds d (List.mem_cons_self _ _)
    have ih' := ih fun ch hch => hds ch (List.mem_cons_of_mem _ hch)
    simp [takeDigits, hd, ih']

theorem matchSuffixClose_valid (sfx tail : List Char) (h : ValidZoneSuffix sfx) :
    matchSuffixClose (sfx ++ ')' :: '/' :: tail) = true := by
  rcases h with rfl | ⟨sign, d1, d2, d3, d4, rfl, hsign, h1, h2, h3, h4⟩
  · simp [matchSuffixClose]
  · rcases hsign with rfl | rfl <;> simp [matchSuffixClose, h1, h2, h3, h4]

/-- A valid suffix never begins with a digit (it is empty — so the next
character is the closing parenthesis — or begins with a sign). -/
theorem validZoneSuffix_head_not_digit (sfx tail : List Char) (h : ValidZoneSuffix sfx)
    (c' : Char) (rest : List Char) (heq : sfx ++ ')' :: '/' :: tail = c' :: rest) :
    c'.isDigit = false := by
  rcases h with rfl | ⟨sign, d1, d2, d3, d4, rfl, hsign, -, -, -, -⟩
  · cases heq
    rfl
  · cases heq
    rcases hsign with rfl | rfl <;> rfl

/-- The digit-value fold over canonical digit characters agrees with the
numeric fold over the digits themselves. -/
theorem digitsVal_map_charOfDigit (L : List Nat) (a : Nat) (h : ∀ d ∈ L, d < 10) :
    (L.map charOfDigit).foldl (fun a c => a * 10 + (c.toNat - 48)) a =
      L.foldl (fun a d => a * 10 + d) a := by
  induction L generalizing a with
  | nil => rfl
  | cons d L' ih =>
    have hd : d < 10 := h d (List.mem_cons_self _ _)
    have hchar : (charOfDigit d).toNat - 48 = d := by
      interval_cases d <;> rfl
    simp only [List.map_cons, List.foldl_cons, hchar]
    exact ih _ fun x hx => h x (List.mem_cons_of_mem _ hx)

/-- The big-endian numeric fold is `Nat.ofDigits` of the little-endian
digit list. -/
theorem foldl_eq_ofDigits (L : List Nat) (a : Nat) :
    L.foldl (fun a d => a * 10 + d) a = a * 10 ^ L.length + Nat.ofDigits 10 L.reverse := by
  induction L generalizing a with
  | nil => simp [Nat.ofDigits]
  | cons d L' ih =>
    simp only [List.foldl_cons, List.reverse_cons, List.length_cons]
    rw [ih, Nat.ofDigits_append]
    simp [Nat.ofDigits_singleton, Nat.pow_succ]
    ring

theorem natDigits_ne_nil (n : Nat) : natDigits n ≠ [] := by
  unfold natDigits
  by_cases h : n = 0
  · simp [h]
  · simp [h, Nat.digits_ne_nil_iff_ne_zero.mpr h]

theorem natDigits_all_digits (n : Nat) : ∀ ch ∈ natDigits n, ch.isDigit = true := by
  intro ch hch
  unfold natDigits at hch
  by_cases h : n = 0
  · simp [h] at hch
    subst hch
    rfl
  · rw [if_neg h] at hch
    obtain ⟨d, hd, rfl⟩ := List.mem_map.mp hch
    have hd10 : d < 10 := Nat.digits_lt_base (by norm_num) (List.mem_reverse.mp hd)
    interval_cases d <;> rfl

theorem digitsVal_natDigits (n : Nat) : digitsVal (natDigits n) = n := by
  unfold natDigits digitsVal
  by_cases h : n = 0
  · simp [h]
  · rw [if_neg h]
    rw [digitsVal_map_charOfDigit _ 0
      (fun d hd => Nat.digits_lt_base (by norm_num) (List.mem_reverse.mp hd))]
    rw [foldl_eq_ofDigits]
    simp [Nat.ofDigits_digits]

/-- Core of the epoch-wrapped date computation: any well-formed
`/Date(N[±ZZZZ])/` string with an in-range `N` parses to the instant
`N` milliseconds after the epoch, the suffix contributing nothing. -/
theorem parse_dotnet_valid_core (isoParse : List Char → Option Int) (ds sfx : List Char)
    (hne : ds ≠ []) (hdig : ∀ ch ∈ ds, ch.isDigit = true) (hsfx : ValidZoneSuffix sfx)
    (hbound : digitsVal ds ≤ maxRepresentableMs) :
    parse_dotnet_date isoParse
        ('/' :: 'D' :: 'a' :: 't' :: 'e' :: '(' :: (ds ++ sfx ++ ')' :: '/' :: [])) =
      Except.ok (some ((digitsVal ds : Int) * 1000)) := by
  have htake : takeDigits (ds ++ sfx ++ ')' :: '/' :: []) = (ds, sfx ++ ')' :: '/' :: []) := by
    rw [List.append_assoc]
    exact takeDigits_append ds _ hdig
      (fun c' rest heq => validZoneSuffix_head_not_digit sfx [] hsfx c' rest heq)
  have hmatch : matchDotNetDate
      ('/' :: 'D' :: 'a' :: 't' :: 'e' :: '(' :: (ds ++ sfx ++ ')' :: '/' :: [])) =
      some (digitsVal ds) := by
    simp only [matchDotNetDate, htake]
    rw [matchSuffixClose_valid sfx [] hsfx]
    simp [hne]
  have hts : fromtimestampMs (digitsVal ds) = Except.ok ((digitsVal ds : Int) * 1000) := by
    unfold fromtimestampMs
    rw [if_pos]
    unfold maxRepresentableMs at hbound
    unfold datetimeMinUs datetimeMaxUs
    constructor <;> omega
  unfold parse_dotnet_date
  rw [if_neg (by simp), hmatch]
  show Except.map some (fromtimestampMs (digitsVal ds)) =
    Except.ok (some ((digitsVal ds : Int) * 1000))
  rw [hts]
  rfl

theorem le_foldr_max (l : List Nat) (x : Nat) (hx : x ∈ l) : x ≤ l.foldr max 0 := by
  induction l with
  | nil => cases hx
  | cons y rest ih =>
    rcases List.mem_cons.mp hx with rfl | h
    · exact Nat.le_max_left _ _
    · exact (ih h).trans (Nat.le_max_right _ _)

/-! ### Claim theorems -/

/-- C1: `execute_workflow_query_for_all` returns the failure sentinel
`none` exactly when the remote call produced no usable response, and a
(possibly empty) list otherwise; `execute_workflow_query_with_fallback`
enters the per-process fallback path precisely when the bulk query
returned the sentinel, and returns a successful result — empty included —
as-is. -/
theorem c1_bulk_sentinel_drives_fallback (env : RemoteEnv) (flags : Option Int) :
    (execute_workflow_query_for_all env flags = none ↔ env.forAllResp = none) ∧
    (∀ resp, env.forAllResp = some resp →
      ∃ instances, execute_workflow_query_for_all env flags = some instances) ∧
    (env.forAllResp = none →
      execute_workflow_query_with_fallback env flags = fallbackPath env flags) ∧
    (∀ instances, execute_workflow_query_for_all env flags = some instances →
      execute_workflow_query_with_fallback env flags = instances) := by
  refine ⟨?_, ?_, ?_, ?_⟩
  · cases h : env.forAllResp <;> simp [execute_workflow_query_for_all, h]
  · intro resp hresp
    exact ⟨resp.workflowQueryResultList.flatMap fun q => extractRows q.resultRows,
      by simp [execute_workflow_query_for_all, hresp]⟩
  · intro hnone
    have hq : execute_workflow_query_for_all env flags = none := by
      simp [execute_workflow_query_for_all, hnone]
    unfold execute_workflow_query_with_fallback
    rw [hq]
  · intro instances hinst
    unfold execute_workflow_query_with_fallback
    rw [hinst]

/-- Witness for C1: a bulk query that succeeds with zero rows is returned
as-is (the fallback path is not entered), at a concrete environment. -/
theorem c1_witness :
    execute_workflow_query_with_fallback envBulkEmptySuccess none = [] :=
  (c1_bulk_sentinel_drives_fallback envBulkEmptySuccess none).2.2.2 [] rfl

/-- C2: the deduplicated `(instance_no, token_no)` list handed to the
detail fetcher contains each pair at most once, keeps exactly the pairs
that were collected (so dedup is keyed on the full pair: a pair sharing
only its `instance_no` with an earlier pair survives), and survivors keep
their discovery order (the output is a subsequence of the collected
list). -/
theorem c2_dedup_by_full_pair_keeps_order (env : RemoteEnv)
    (process_nos : Option (List Int)) (flags : Option Int) :
    (gatherInstanceRefs env process_nos flags).Nodup ∧
    (∀ p : Int × Int,
      p ∈ gatherInstanceRefs env process_nos flags ↔
        p ∈ collectedRefs env process_nos flags) ∧
    (gatherInstanceRefs env process_nos flags).Sublist
      (collectedRefs env process_nos flags) := by
  refine ⟨nodup_dedupLoop _ _, fun p => ?_, sublist_dedupLoop _ _⟩
  simpa using mem_dedupLoop [] (collectedRefs env process_nos flags) p

/-- C3 (amended): the statistics pre-filter of the process-scoped query is
an optimization precisely when the type-102 statistics are conclusive for
the requested flags — whenever every requested process outside the
statistics-derived active set would itself return no instances, the
filtered query equals the full-scope query; and when the statistics call
fails the optimization is skipped, so the full requested scope is queried
unconditionally.  (The unamended claim quantifies over *every* flag value;
it fails for flags whose matching instances need not be active, see
`c3_counterexample`.) -/
theorem c3_stats_prefilter_conditional (env : RemoteEnv) (process_nos : List Int)
    (flags : Option Int) :
    (∀ active, _get_active_processes_from_stats env = some active →
      (∀ p ∈ dedupKeepOrder process_nos, p ∉ active →
        execute_workflow_query_for_process env p flags = []) →
      scopedQuery env process_nos flags = fullScopeQuery env process_nos flags) ∧
    (_get_active_processes_from_stats env = none →
      scopedQuery env process_nos flags = fullScopeQuery env process_nos flags) := by
  constructor
  · intro active hactive hdropped
    unfold scopedQuery fullScopeQuery
    rw [hactive]
    exact filter_flatMap_of_dropped_nil _ _ _ fun p hp hfalse =>
      hdropped p hp (by simpa using hfalse)
  · intro hnone
    unfold scopedQuery fullScopeQuery
    rw [hnone]

/-- Counterexample for C3 as stated: with the error-instances flag, a
process with an error instance but zero active instances is silently
pre-filtered away (the pre-filter always uses statistics type 102, the
*active*-instance counts), so the scoped query loses instances the
full-scope query returns. -/
theorem c3_counterexample :
    scopedQuery envPreFilterGap [10] (some ERROR_INSTANCES) = [] ∧
    fullScopeQuery envPreFilterGap [10] (some ERROR_INSTANCES) = [(100, 0)] ∧
    scopedQuery envPreFilterGap [10] (some ERROR_INSTANCES) ≠
      fullScopeQuery envPreFilterGap [10] (some ERROR_INSTANCES) := by
  exact ⟨rfl, rfl, by decide⟩

/-- Witness for C3: at a concrete environment where the dropped process
would indeed return nothing, the pre-filtered scoped query equals the
full-scope query. -/
theorem c3_witness :
    scopedQuery envPreFilterSound [5, 7] none = fullScopeQuery envPreFilterSound [5, 7] none :=
  (c3_stats_prefilter_conditional envPreFilterSound [5, 7] none).1
    (statsActiveProcessIds { resultRows := [{ entryNo := some 5, countValue := 3 }] })
    rfl (by decide)

/-- C6: for a run that reaches the emailing stage with final counts, the
persisted status is `"success"` iff `failed = 0`, `"partial"` iff
`sent > 0 ∧ failed > 0`, and `"error"` iff `sent = 0 ∧ failed > 0`; a run
aborted by an exception is logged with status `"error"` and the exception
text. -/
theorem c6_run_status_classification (sent failed : Nat) (exnText : String)
    (messages : List String) :
    (report_status sent failed = "success" ↔ failed = 0) ∧
    (report_status sent failed = "partial" ↔ 0 < sent ∧ 0 < failed) ∧
    (report_status sent failed = "error" ↔ sent = 0 ∧ 0 < failed) ∧
    run_log_entry (Except.error exnText) messages =
      ("error", "Error processing report: " ++ exnText) := by
  refine ⟨?_, ?_, ?_, rfl⟩ <;>
  · unfold report_status
    split_ifs with h1 h2 <;> simp_all <;> omega

/-- C10: a failed remote "list processes" fetch returns the empty list
without writing a cache entry, so a later call (any time, any response)
re-issues the remote call rather than serving a cached empty result. -/
theorem c10_failure_never_cached (m : CacheMap) (now later : Int) (tenant : String)
    (retryResp : Option GOLResp)
    (hmiss : cacheLookup m (tenant, "workflow_processes") = none) :
    (get_all_workflow_processes m now tenant none true).2.1 = [] ∧
    (get_all_workflow_processes m now tenant none true).2.2 = true ∧
    (get_all_workflow_processes m now tenant none true).1 = m ∧
    (get_all_workflow_processes
      (get_all_workflow_processes m now tenant none true).1
      later tenant retryResp true).2.2 = true := by
  have hcache : ∀ t : Int, get_cache m t (tenant, "workflow_processes") = (m, none) := by
    intro t
    unfold get_cache
    rw [hmiss]
  refine ⟨?_, ?_, ?_, ?_⟩ <;>
    · simp only [get_all_workflow_processes, if_pos rfl, hcache]
      cases retryResp <;> simp [hcache]

/-- Witness for C10 at a concrete empty cache. -/
theorem c10_witness :
    (get_all_workflow_processes ([] : CacheMap) 0 "acme" none true).2.1 = [] ∧
    (get_all_workflow_processes
      (get_all_workflow_processes ([] : CacheMap) 0 "acme" none true).1
      10 "acme" none true).2.2 = true := by
  have h := c10_failure_never_cached [] 0 10 "acme" none rfl
  exact ⟨h.1, h.2.2.2⟩

/-- C8: starting from a cache without the tenant's entry, a successful
fetch at `t0` issues the remote call and stores the sorted process list; a
second call at `t1` within the 1-hour TTL serves that cached sorted list
with no remote call; a third call at `t2` past the TTL issues a second
remote call. -/
theorem c8_cache_ttl_single_fetch (m0 : CacheMap) (tenant : String) (t0 t1 t2 : Int)
    (resp : GOLResp) (laterResp retryResp : Option GOLResp)
    (hmiss : cacheLookup m0 (tenant, "workflow_processes") = none)
    (hfresh : t1 - t0 ≤ PROCESS_CACHE_TTL)
    (hstale : PROCESS_CACHE_TTL < t2 - t0) :
    (get_all_workflow_processes m0 t0 tenant (some resp) true).2.2 = true ∧
    (get_all_workflow_processes m0 t0 tenant (some resp) true).2.1 =
      (extractProcesses resp).mergeSort processListLe ∧
    (get_all_workflow_processes
      (get_all_workflow_processes m0 t0 tenant (some resp) true).1
      t1 tenant laterResp true).2.2 = false ∧
    (get_all_workflow_processes
      (get_all_workflow_processes m0 t0 tenant (some resp) true).1
      t1 tenant laterResp true).2.1 =
      (extractProcesses resp).mergeSort processListLe ∧
    (get_all_workflow_processes
      (get_all_workflow_processes m0 t0 tenant (some resp) true).1
      t2 tenant retryResp true).2.2 = true := by
  set key : CacheKey := (tenant, "workflow_processes") with hkey
  set sortedProcesses := (extractProcesses resp).mergeSort processListLe with hsorted
  have hcache0 : get_cache m0 t0 key = (m0, none) := by
    unfold get_cache
    rw [hmiss]
  have hfirst : get_all_workflow_processes m0 t0 tenant (some resp) true =
      (set_cache m0 t0 key sortedProcesses, sortedProcesses, true) := by
    simp [get_all_workflow_processes, hcache0, hsorted, hkey]
  have hlookup1 : cacheLookup (set_cache m0 t0 key sortedProcesses) key =
      some (t0, sortedProcesses) := by
    simp [set_cache, cacheInsert, cacheLookup]
  have hsecond : get_cache (set_cache m0 t0 key sortedProcesses) t1 key =
      (set_cache m0 t0 key sortedProcesses, some sortedProcesses) := by
    unfold get_cache
    rw [hlookup1]
    simp only [if_neg (by omega : ¬ PROCESS_CACHE_TTL < t1 - t0)]
  have hthird : get_cache (set_cache m0 t0 key sortedProcesses) t2 key =
      (cacheErase (set_cache m0 t0 key sortedProcesses) key, none) := by
    unfold get_cache
    rw [hlookup1]
    simp only [if_pos (by omega : PROCESS_CACHE_TTL < t2 - t0)]
  rw [hfirst]
  refine ⟨rfl, rfl, ?_, ?_, ?_⟩ <;>
    · simp only [get_all_workflow_processes, if_pos rfl, hsecond, hthird]
      cases retryResp <;> simp

/-- Witness for C8: a concrete cold cache, a hit exactly at the TTL bound,
and a miss one second past it. -/
theorem c8_witness :
    (get_all_workflow_processes ([] : CacheMap) 0 "acme"
      (some { allItemsList := [] }) true).2.2 = true ∧
    (get_all_workflow_processes
      (get_all_workflow_processes ([] : CacheMap) 0 "acme"
        (some { allItemsList := [] }) true).1
      3600 "acme" none true).2.2 = false ∧
    (get_all_workflow_processes
      (get_all_workflow_processes ([] : CacheMap) 0 "acme"
        (some { allItemsList := [] }) true).1
      3601 "acme" none true).2.2 = true := by
  have h := c8_cache_ttl_single_fetch [] "acme" 0 3600 3601 { allItemsList := [] }
    none none rfl (by decide) (by decide)
  exact ⟨h.1, h.2.2.1, h.2.2.2.2⟩

/-- C5: sorting by due date yields a permutation of the input that is
sorted under the source's due-date key — overdue entries (tag 0) first in
ascending due-date order, then non-overdue entries (tag 1) ascending by due
date, then entries with no due date (tag 2) last — and the sort is stable:
for every key value the subsequence of entries carrying that key is exactly
the input's subsequence, so equal-key entries keep their input order. -/
theorem c5_due_date_sort_order (now : Int) (instances : List InstanceForUser) :
    (sort_instances now instances "task_due_date").Perm instances ∧
    (sort_instances now instances "task_due_date").Pairwise
      (fun a b => dueKeyLe now a b = true) ∧
    (∀ k : Nat × Int,
      (sort_instances now instances "task_due_date").filter
          (fun i => dueDateKey now i = k) =
        instances.filter (fun i => dueDateKey now i = k)) := by
  by_cases hnil : instances = []
  · subst hnil
    refine ⟨?_, ?_, ?_⟩ <;> simp [sort_instances]
  · have hrw : sort_instances now instances "task_due_date" =
        instances.mergeSort (dueKeyLe now) := by
      unfold sort_instances
      rw [if_neg hnil, if_pos rfl]
    have htrans : ∀ a b c, dueKeyLe now a b → dueKeyLe now b c → dueKeyLe now a c :=
      fun a b c => lexLe_trans _ _ a b c
    have htotal : ∀ a b, dueKeyLe now a b || dueKeyLe now b a :=
      fun a b => lexLe_total _ _ a b
    rw [hrw]
    refine ⟨List.mergeSort_perm instances (dueKeyLe now),
      List.sorted_mergeSort htrans htotal instances, fun k => ?_⟩
    refine filter_mergeSort_eq (dueKeyLe now) htrans htotal _ ?_ instances
    intro a b ha hb
    have ha' : dueDateKey now a = k := of_decide_eq_true ha
    have hb' : dueDateKey now b = k := of_decide_eq_true hb
    exact lexLe_of_eq_keys _ _ a b (by rw [ha', hb']) (by rw [ha', hb'])

/-- C4 (amended): whenever group membership strictly descends under some
rank (equivalently, no group directly or transitively contains itself),
group expansion terminates; and every result a terminating expansion
produces contains only `SINGLE_USER` entries with `disabled = false` —
group-type entries and disabled users at any depth never appear.  (The
unamended claim also asserts termination for a self-containing group; the
source has no cycle guard and recurses forever there, see
`c4_counterexample`.) -/
theorem c4_group_expansion_filtered (env : GroupEnv) (rank : Int → Nat)
    (hr : ∀ gid m, m ∈ get_users_from_group env gid →
      m.user_type = UserType.USER_GROUP → rank m.user_id < rank gid)
    (users : List UserDetail) :
    ExpandTerminates env users ∧
    (∀ fuel result, expandUsers env fuel users = some result →
      ∀ u ∈ result, u.user_type = UserType.SINGLE_USER ∧ u.disabled = false) := by
  constructor
  · refine ⟨1 + (users.map fun u => rank u.user_id).foldr max 0, ?_⟩
    refine expandUsers_isSome_of_rank env rank hr _ users fun u hu _ => ?_
    have hle : rank u.user_id ≤ (users.map fun u => rank u.user_id).foldr max 0 :=
      le_foldr_max _ _ (List.mem_map_of_mem _ hu)
    omega
  · exact fun fuel result h => expandUsers_sound env fuel users result h

/-- Counterexample for C4 as stated: for the group that contains itself as
a member, expansion does not terminate (it fails at every modelled
recursion depth). -/
theorem c4_counterexample : ¬ ExpandTerminates cycGroupEnv [cycGroupUser] := by
  rintro ⟨fuel, hsome⟩
  rw [expandUsers_cyc_none fuel] at hsome
  cases hsome

/-- Witness for C4 at a concrete cycle-free environment (every group
empty). -/
theorem c4_witness : ExpandTerminates emptyGroupEnv [cycGroupUser] :=
  (c4_group_expansion_filtered emptyGroupEnv (fun _ => 0)
    (by intro gid m hm _; simp [get_users_from_group, emptyGroupEnv] at hm)
    [cycGroupUser]).1

/-- C9: the linked-document parser splits on the first occurrence of
`" - "` — the returned pieces decompose the input around an occurrence no
later than any other — with `category_name` the trimmed left side and
`index_data` the trimmed right side; when no `" - "` occurs anywhere,
`category_name` is empty and `index_data` is the whole string; and in every
case `full_string` is the input unchanged. -/
theorem c9_linked_document_parse (d c : Int) (s : List Char) :
    (LinkedDocument.from_index_string d c s).full_string = s ∧
    (∀ l r, splitOnceSep s = some (l, r) →
      (LinkedDocument.from_index_string d c s).category_name = pyStrip l ∧
      (LinkedDocument.from_index_string d c s).index_data = pyStrip r ∧
      s = l ++ sepChars ++ r ∧
      ∀ l' r', s = l' ++ sepChars ++ r' → l.length ≤ l'.length) ∧
    (splitOnceSep s = none →
      (LinkedDocument.from_index_string d c s).category_name = [] ∧
      (LinkedDocument.from_index_string d c s).index_data = s ∧
      ∀ l r, s ≠ l ++ sepChars ++ r) := by
  refine ⟨?_, ?_, ?_⟩
  · unfold LinkedDocument.from_index_string
    cases splitOnceSep s <;> rfl
  · intro l r h
    obtain ⟨h1, h2⟩ := splitOnceSep_some_spec s l r h
    unfold LinkedDocument.from_index_string
    rw [h]
    exact ⟨rfl, rfl, h1, h2⟩
  · intro h
    unfold LinkedDocument.from_index_string
    rw [h]
    exact ⟨rfl, rfl, eq_none_splitOnceSep s h⟩

/-- Witness for C9 at the concrete input `"AB - C"`. -/
theorem c9_witness :
    (LinkedDocument.from_index_string 1 2 ['A', 'B', ' ', '-', ' ', 'C']).category_name =
      ['A', 'B'] ∧
    (LinkedDocument.from_index_string 1 2 ['A', 'B', ' ', '-', ' ', 'C']).index_data = ['C'] ∧
    (LinkedDocument.from_index_string 1 2 ['A', 'B', ' ', '-', ' ', 'C']).full_string =
      ['A', 'B', ' ', '-', ' ', 'C'] := by
  have h := c9_linked_document_parse 1 2 ['A', 'B', ' ', '-', ' ', 'C']
  have hsplit := h.2.1 ['A', 'B'] ['C'] (by decide)
  exact ⟨by rw [hsplit.1]; decide, by rw [hsplit.2.1]; decide, h.1⟩

/-- C7 (amended): every epoch-milliseconds-wrapped string
`/Date(N[±ZZZZ])/` whose value `N` stays within `datetime`'s representable
range parses to the UTC instant exactly `N` milliseconds after the epoch —
the zone-offset suffix is ignored — and consequently every in-range
millisecond value round-trips through its canonical `/Date(N)/` rendering.
The millisecond→second conversion is taken at exact arithmetic (see the
embedding notes: the source divides in IEEE-754 doubles, whose rounding
this model idealises away).  (The unamended claim covers *every*
millisecond value; out-of-range values make `datetime.fromtimestamp` raise
instead, see `c7_counterexample`.) -/
theorem c7_epoch_ms_parse (isoParse : List Char → Option Int) :
    (∀ ds sfx, ds ≠ [] → (∀ ch ∈ ds, ch.isDigit = true) → ValidZoneSuffix sfx →
      digitsVal ds ≤ maxRepresentableMs →
      parse_dotnet_date isoParse
          ('/' :: 'D' :: 'a' :: 't' :: 'e' :: '(' :: (ds ++ sfx ++ ')' :: '/' :: [])) =
        Except.ok (some ((digitsVal ds : Int) * 1000))) ∧
    (∀ n : Nat, n ≤ maxRepresentableMs →
      parse_dotnet_date isoParse
          ('/' :: 'D' :: 'a' :: 't' :: 'e' :: '(' :: (natDigits n ++ ')' :: '/' :: [])) =
        Except.ok (some ((n : Int) * 1000))) := by
  constructor
  · exact fun ds sfx h1 h2 h3 h4 => parse_dotnet_valid_core isoParse ds sfx h1 h2 h3 h4
  · intro n hn
    have h := parse_dotnet_valid_core isoParse (natDigits n) [] (natDigits_ne_nil n)
      (natDigits_all_digits n) (Or.inl rfl) (by rw [digitsVal_natDigits]; exact hn)
    rw [digitsVal_natDigits] at h
    simpa using h

/-- Counterexample for C7 as stated: the valid epoch-wrapped string whose
value is one millisecond beyond `datetime`'s range makes the parser raise
(`datetime.fromtimestamp` fails for year 10000) instead of returning the
instant. -/
theorem c7_counterexample :
    parse_dotnet_date (fun _ => none)
        ['/', 'D', 'a', 't', 'e', '(', '2', '5', '3', '4', '0', '2', '3', '0', '0', '8',
          '0', '0', '0', '0', '0', ')', '/'] =
      Except.error "year out of range" := by
  rfl

/-- Witness for C7 at the concrete string `/Date(1700000000000+0200)/`:
the `+0200` suffix is ignored and the instant is exactly
1700000000000 ms after the epoch. -/
theorem c7_witness :
    parse_dotnet_date (fun _ => none)
        ('/' :: 'D' :: 'a' :: 't' :: 'e' :: '(' ::
          (['1', '7', '0', '0', '0', '0', '0', '0', '0', '0', '0', '0', '0'] ++
            ['+', '0', '2', '0', '0'] ++ ')' :: '/' :: [])) =
      Except.ok (some ((1700000000000 : Int) * 1000)) := by
  have hval : digitsVal ['1', '7', '0', '0', '0', '0', '0', '0', '0', '0', '0', '0', '0'] =
      1700000000000 := by decide
  have h := (c7_epoch_ms_parse (fun _ => none)).1
    ['1', '7', '0', '0', '0', '0', '0', '0', '0', '0', '0', '0', '0']
    ['+', '0', '2', '0', '0'] (by decide) (by decide)
    (Or.inr ⟨'+', '0', '2', '0', '0', rfl, Or.inl rfl, rfl, rfl, rfl, rfl⟩)
    (by rw [hval]; decide)
  rw [hval] at h
  exact h

end ThereforeSpec
